import Mathlib

/-!
Shallow embedding of the password-security tool (src/checker.py, src/generator.py,
src/models.py).

Passwords are modelled as `List Char`.  The regex character classes of the checker
(`[a-z]`, `[A-Z]`, `\d`, `[^a-zA-Z0-9]`) are modelled over the ASCII range.  The
real-valued library functions `math.log2` and `2 ** x` are modelled as parameters
of a `MathOracle` structure: every theorem below holds for every oracle (with an
explicit nonnegativity hypothesis where the mathematics of `log2` is needed), so
in particular for the real functions.  Rounding to two decimal places
(Python `round(x, 2)`) is modelled with `Int.floor (100 * x + 1/2) / 100`; the two
conventions agree except at exact half-way ties, which do not arise for the
irrational entropy values the code produces.  The random source (`secrets.choice`,
`secrets.SystemRandom().shuffle`) is modelled by oracle functions indexed by a call
counter; theorems quantify over all oracles whose choices are members of the list
drawn from and whose shuffle is a permutation, so they cover every execution trace
of the Python code.  Exceptions (`ValueError`) are modelled with `Except` and the
error taxonomy of the specification (`InvalidLength`, `NoCharsetSelected`,
`InvalidWordCount`).
-/

namespace PwdTool

/-- Models the regex class `[a-z]`. -/
def isLowerC (c : Char) : Bool := 'a' ≤ c && c ≤ 'z'

/-- Models the regex class `[A-Z]`. -/
def isUpperC (c : Char) : Bool := 'A' ≤ c && c ≤ 'Z'

/-- Models the regex class `\d` (ASCII range). -/
def isDigitC (c : Char) : Bool := '0' ≤ c && c ≤ '9'

/-- Models the regex class `[^a-zA-Z0-9]`: anything not alphanumeric. -/
def isSymbolC (c : Char) : Bool := !(isLowerC c || isUpperC c || isDigitC c)

/-- Bool: does `pat` occur at the start of `l`. -/
def startsWithL : List Char → List Char → Bool
  | [], _ => true
  | _ :: _, [] => false
  | a :: p, b :: l => a = b && startsWithL p l

/-- Bool: does `pat` occur as a contiguous substring of `l` (Python `pat in l`). -/
def containsSub (pat : List Char) : List Char → Bool
  | [] => startsWithL pat []
  | c :: rest => startsWithL pat (c :: rest) || containsSub pat rest

/-- Models the regex `(.)\1{2,}`: three or more identical consecutive characters. -/
def hasTripleRepeat : List Char → Bool
  | a :: b :: c :: rest => (a = b && b = c) || hasTripleRepeat (b :: c :: rest)
  | _ => false

/-- models.StrengthLevel: six ordered strength categories. -/
inductive StrengthLevel where
  | veryWeak
  | weak
  | fair
  | good
  | strong
  | veryStrong
deriving DecidableEq

/-- models.PasswordAnalysis: the result record of a strength analysis. -/
structure PasswordAnalysis where
  password : List Char
  strength : StrengthLevel
  score : Int
  entropy : ℚ
  feedback : List String
  time_to_crack : String
deriving DecidableEq

/-- The real-valued library functions used by the checker, as an oracle:
`log2 n` models `math.log2 n` and `pow2 q` models `2 ** q`. -/
structure MathOracle where
  log2 : Nat → ℚ
  pow2 : ℚ → ℚ

/-- Python `round(q, 2)` (ties rounded up; see the file-level comment). -/
def round2 (q : ℚ) : ℚ := (Int.floor (100 * q + 1/2) : ℚ) / 100

/-- Python `int(q)` for the nonnegative quantities of the crack-time buckets. -/
def truncQ (q : ℚ) : Int := Int.floor q

namespace PasswordStrengthChecker

def COMMON_PASSWORDS : List (List Char) :=
  ["password".toList, "123456".toList, "12345678".toList, "qwerty".toList,
   "abc123".toList, "monkey".toList, "1234567".toList, "letmein".toList,
   "trustno1".toList, "dragon".toList, "baseball".toList, "iloveyou".toList,
   "master".toList, "sunshine".toList, "ashley".toList, "bailey".toList,
   "passw0rd".toList, "shadow".toList, "123123".toList, "654321".toList,
   "admin".toList, "welcome".toList, "login".toList, "password1".toList,
   "qwerty123".toList]

def COMMON_PATTERNS : List (List Char) :=
  ["123".toList, "abc".toList, "qwe".toList, "111".toList, "000".toList,
   "aaa".toList]

def KEYBOARD_PATTERNS : List (List Char) :=
  ["qwerty".toList, "asdfgh".toList, "zxcvbn".toList, "1qaz".toList,
   "2wsx".toList, "qwertyuiop".toList, "asdfghjkl".toList, "zxcvbnm".toList]

def min_length : Nat := 8

def recommended_length : Nat := 12

def strong_length : Nat := 16

/-- checker._check_length: length score delta and feedback. -/
def check_length (password : List Char) : Int × List String :=
  let length := password.length
  if length < min_length then
    (-2, ["Password too short. Use at least 8 characters"])
  else if length ≥ strong_length then (3, [])
  else if length ≥ recommended_length then (2, [])
  else (1, ["Consider using at least 12 characters"])

/-- checker._check_character_variety: variety score delta and feedback. -/
def check_character_variety (password : List Char) : Int × List String :=
  let has_lower := password.any isLowerC
  let has_upper := password.any isUpperC
  let has_digit := password.any isDigitC
  let has_symbol := password.any isSymbolC
  ((if has_lower then 1 else 0) + (if has_upper then 1 else 0) +
     (if has_digit then 1 else 0) + (if has_symbol then 2 else 0),
   (if has_lower then [] else ["Add lowercase letters (a-z)"]) ++
     (if has_upper then [] else ["Add uppercase letters (A-Z)"]) ++
     (if has_digit then [] else ["Add numbers (0-9)"]) ++
     (if has_symbol then [] else ["Add special characters (!@#$%^&*)"]))

/-- checker._check_patterns: common-password and common-pattern penalties. -/
def check_patterns (password : List Char) : Int × List String :=
  let lower_pwd := password.map Char.toLower
  let common : Int × List String :=
    if lower_pwd ∈ COMMON_PASSWORDS then
      (-5, ["This is a commonly used password - avoid it"])
    else (0, [])
  let patterns : Int × List String :=
    match COMMON_PATTERNS.find? (fun pat => containsSub pat lower_pwd) with
    | some pat =>
        (-1, ["Avoid common patterns like \x27" ++ String.mk pat ++ "\x27"])
    | none => (0, [])
  (common.1 + patterns.1, common.2 ++ patterns.2)

/-- checker._check_sequences: repeated-character and keyboard-pattern penalties. -/
def check_sequences (password : List Char) : Int × List String :=
  let repeated : Int × List String :=
    if hasTripleRepeat password then
      (-1, ["Avoid repeated characters (e.g., \x27aaa\x27, \x27111\x27)"])
    else (0, [])
  let lower_pwd := password.map Char.toLower
  let keyboard : Int × List String :=
    match KEYBOARD_PATTERNS.find? (fun pat => containsSub pat lower_pwd) with
    | some _ => (-1, ["Avoid keyboard patterns"])
    | none => (0, [])
  (repeated.1 + keyboard.1, repeated.2 ++ keyboard.2)

/-- checker._calculate_entropy: the effective charset size. -/
def charset_size (password : List Char) : Nat :=
  (if password.any isLowerC then 26 else 0) +
    (if password.any isUpperC then 26 else 0) +
    (if password.any isDigitC then 10 else 0) +
    (if password.any isSymbolC then 32 else 0)

/-- checker._calculate_entropy: `round(len * log2 charset_size, 2)`, 0 on empty charset. -/
def calculate_entropy (o : MathOracle) (password : List Char) : ℚ :=
  let cs := charset_size password
  if cs = 0 then 0
  else round2 ((password.length : ℚ) * o.log2 cs)

/-- checker._determine_strength: the band if-chain of the code. -/
def determine_strength (score : Int) (entropy : ℚ) : StrengthLevel :=
  if score ≤ 0 ∨ entropy < 28 then .veryWeak
  else if score ≤ 2 ∨ entropy < 36 then .weak
  else if score ≤ 4 ∨ entropy < 50 then .fair
  else if score ≤ 6 ∨ entropy < 60 then .good
  else if score ≤ 8 ∨ entropy < 70 then .strong
  else .veryStrong

/-- checker._estimate_crack_time: bucket `2^entropy / 1e9` seconds into a label. -/
def estimate_crack_time (o : MathOracle) (entropy : ℚ) : String :=
  let attempts := o.pow2 entropy
  let seconds := attempts / 1000000000
  if seconds < 1 then "Instant"
  else if seconds < 60 then toString (truncQ seconds) ++ " seconds"
  else if seconds < 3600 then toString (truncQ (seconds / 60)) ++ " minutes"
  else if seconds < 86400 then toString (truncQ (seconds / 3600)) ++ " hours"
  else if seconds < 31536000 then toString (truncQ (seconds / 86400)) ++ " days"
  else if seconds < 31536000 * 100 then
    toString (truncQ (seconds / 31536000)) ++ " years"
  else "Centuries"

/-- The unclamped total of the four check deltas (the `score` local of
checker.check_strength before the `max(0, score)` clamp). -/
def rawScore (password : List Char) : Int :=
  (check_length password).1 + (check_character_variety password).1 +
    (check_patterns password).1 + (check_sequences password).1

/-- checker.check_strength: the full analysis pipeline. -/
def check_strength (o : MathOracle) (password : List Char) : PasswordAnalysis :=
  if password = [] then
    { password := []
      strength := .veryWeak
      score := 0
      entropy := 0
      feedback := ["Password cannot be empty"]
      time_to_crack := "Instant" }
  else
    let lr := check_length password
    let vr := check_character_variety password
    let pr := check_patterns password
    let sr := check_sequences password
    let score := lr.1 + vr.1 + pr.1 + sr.1
    let feedback := lr.2 ++ vr.2 ++ pr.2 ++ sr.2
    let entropy := calculate_entropy o password
    { password := password
      strength := determine_strength score entropy
      score := max 0 score
      entropy := entropy
      feedback :=
        if feedback = [] then ["Password meets security requirements"]
        else feedback
      time_to_crack := estimate_crack_time o entropy }

/-- The band table as the specification words it: evaluate the six bands in
ascending order, inclusive OR of a score ceiling and an entropy floor, and
assign the first band whose condition holds (else VeryStrong).  This is the
spec-side definition compared with `determine_strength` from the code. -/
def strengthFromBands (score : Int) (entropy : ℚ) : StrengthLevel :=
  let bands : List (Bool × StrengthLevel) :=
    [(decide (score ≤ 0) || decide (entropy < 28), .veryWeak),
     (decide (score ≤ 2) || decide (entropy < 36), .weak),
     (decide (score ≤ 4) || decide (entropy < 50), .fair),
     (decide (score ≤ 6) || decide (entropy < 60), .good),
     (decide (score ≤ 8) || decide (entropy < 70), .strong)]
  match bands.find? (fun b => b.1) with
  | some b => b.2
  | none => .veryStrong

/-- The character-class composition of a password: presence of each of the four
classes, in the order lowercase, uppercase, digit, symbol. -/
def classesOf (password : List Char) : Bool × Bool × Bool × Bool :=
  (password.any isLowerC, password.any isUpperC, password.any isDigitC,
   password.any isSymbolC)

end PasswordStrengthChecker

/-- The error taxonomy of the specification for the generator. -/
inductive GenError where
  | invalidLength
  | noCharsetSelected
  | invalidWordCount
deriving DecidableEq

namespace PasswordGenerator

def lowercase : List Char := "abcdefghijklmnopqrstuvwxyz".toList

def uppercase : List Char := "ABCDEFGHIJKLMNOPQRSTUVWXYZ".toList

def digits : List Char := "0123456789".toList

def symbols : List Char := "!@#$%^&*()_+-=[]\x7b\x7d|;:,.<>?".toList

def word_list : List (List Char) :=
  ["correct".toList, "horse".toList, "battery".toList, "staple".toList,
   "mountain".toList, "river".toList, "ocean".toList, "forest".toList,
   "castle".toList, "dragon".toList, "wizard".toList, "knight".toList,
   "phoenix".toList, "thunder".toList, "crystal".toList, "shadow".toList,
   "silver".toList, "golden".toList, "mystic".toList, "ancient".toList,
   "cosmic".toList, "digital".toList, "quantum".toList, "stellar".toList,
   "cipher".toList, "falcon".toList, "granite".toList, "harbor".toList,
   "island".toList, "jungle".toList, "kingdom".toList, "lunar".toList,
   "nebula".toList, "orbit".toList, "prism".toList, "radar".toList,
   "summit".toList, "tempest".toList, "ultraviolet".toList, "vertex".toList,
   "whisper".toList, "xenon".toList, "yellow".toList, "zenith".toList,
   "alpha".toList, "bravo".toList, "charlie".toList, "delta".toList]

/-- The union charset generator.generate builds from the selected classes,
in the order lowercase, uppercase, digits, symbols. -/
def charsetOf (use_lowercase use_uppercase use_digits use_symbols : Bool) :
    List Char :=
  (if use_lowercase then lowercase else []) ++
    (if use_uppercase then uppercase else []) ++
    (if use_digits then digits else []) ++
    (if use_symbols then symbols else [])

/-- The guaranteed draws of generator.generate: one `secrets.choice` from each
selected class, in the order lowercase, uppercase, digits, symbols (the call
counter of `choice` distinguishes the four call sites). -/
def mandatoryOf (choice : Nat → List Char → Char)
    (use_lowercase use_uppercase use_digits use_symbols : Bool) : List Char :=
  (if use_lowercase then [choice 0 lowercase] else []) ++
    (if use_uppercase then [choice 1 uppercase] else []) ++
    (if use_digits then [choice 2 digits] else []) ++
    (if use_symbols then [choice 3 symbols] else [])

/-- generator.generate.  `choice` models `secrets.choice` (indexed by a call
counter so that distinct calls may return distinct characters) and `shuffle`
models `secrets.SystemRandom().shuffle`. -/
def generate (choice : Nat → List Char → Char) (shuffle : List Char → List Char)
    (length : Int)
    (use_lowercase use_uppercase use_digits use_symbols : Bool) :
    Except GenError (List Char) :=
  if length < 8 then .error .invalidLength
  else
    let charset := charsetOf use_lowercase use_uppercase use_digits use_symbols
    if charset = [] then .error .noCharsetSelected
    else
      let password :=
        mandatoryOf choice use_lowercase use_uppercase use_digits use_symbols
      let remaining_length := (length - password.length).toNat
      let fill := (List.range remaining_length).map (fun i => choice (4 + i) charset)
      .ok (shuffle (password ++ fill))

/-- Python `str.capitalize`: first character upper-cased, the rest lower-cased. -/
def capitalizeWord : List Char → List Char
  | [] => []
  | c :: cs => c.toUpper :: cs.map Char.toLower

/-- generator.generate_passphrase.  `choice` models `secrets.choice` over the
word list, indexed by a call counter. -/
def generate_passphrase (choice : Nat → List (List Char) → List Char)
    (word_count : Int) (separator : List Char) (capitalize : Bool) :
    Except GenError (List Char) :=
  if word_count < 3 then .error .invalidWordCount
  else
    let selected_words :=
      (List.range word_count.toNat).map (fun i => choice i word_list)
    let selected_words :=
      if capitalize then selected_words.map capitalizeWord else selected_words
    .ok (List.intercalate separator selected_words)

end PasswordGenerator

/-- Splitting a character list at a separator character (the segment structure
of Python `sep.join(words)` read back): `splitOnChar sep l` is the list of
maximal sep-free segments of `l`, with empty segments kept. -/
def splitOnChar (sep : Char) : List Char → List (List Char)
  | [] => [[]]
  | c :: rest =>
    let r := splitOnChar sep rest
    if c = sep then [] :: r
    else
      match r with
      | [] => [[c]]
      | s :: ss => (c :: s) :: ss

/-- A trivial concrete math oracle, used to instantiate witnesses. -/
def oracle0 : MathOracle := { log2 := fun _ => 0, pow2 := fun _ => 0 }

/-- A concrete math oracle with nonnegative log values, used for witnesses. -/
def oracleN : MathOracle := { log2 := fun n => (n : ℚ), pow2 := fun _ => 0 }

/-- A concrete deterministic character-choice function, used for witnesses. -/
def choiceD : Nat → List Char → Char := fun _ l => l.headD 'a'

/-- A concrete deterministic word-choice function, used for witnesses. -/
def wordChoiceD : Nat → List (List Char) → List Char := fun _ l => l.headD []

end PwdTool

namespace PwdTool

open PasswordStrengthChecker PasswordGenerator

theorem choiceD_mem (n : Nat) (l : List Char) (hl : l ≠ []) : choiceD n l ∈ l := by
  cases l with
  | nil => exact absurd rfl hl
  | cons a t => exact List.mem_cons_self a t

theorem wordChoiceD_mem (n : Nat) (l : List (List Char)) (hl : l ≠ []) :
    wordChoiceD n l ∈ l := by
  cases l with
  | nil => exact absurd rfl hl
  | cons a t => exact List.mem_cons_self a t

theorem strengthFromBands_eq_determine (s : Int) (e : ℚ) :
    strengthFromBands s e = determine_strength s e := by
  by_cases h1 : s ≤ 0 ∨ e < 28 <;>
    by_cases h2 : s ≤ 2 ∨ e < 36 <;>
    by_cases h3 : s ≤ 4 ∨ e < 50 <;>
    by_cases h4 : s ≤ 6 ∨ e < 60 <;>
    by_cases h5 : s ≤ 8 ∨ e < 70 <;>
    simp [strengthFromBands, determine_strength, List.find?, ← Bool.decide_or,
      h1, h2, h3, h4, h5]

/-- C2: for every non-empty password, the strength level of the returned
analysis is obtained by evaluating the six bands in ascending order with an
inclusive OR between a score ceiling and an entropy floor, taking the first
band whose condition holds, and the score fed into that comparison is the
unclamped total of the four check deltas, while the returned score field is
the clamped `max 0` of that same total. -/
theorem check_strength_band_structure (o : MathOracle) (p : List Char)
    (hp : p ≠ []) :
    (check_strength o p).strength =
      strengthFromBands (rawScore p) (calculate_entropy o p) ∧
    (check_strength o p).score = max 0 (rawScore p) := by
  unfold check_strength
  rw [if_neg hp]
  exact ⟨(strengthFromBands_eq_determine (rawScore p) (calculate_entropy o p)).symm, rfl⟩

theorem check_strength_band_structure_witness :
    (check_strength oracle0 ['a']).strength =
      strengthFromBands (rawScore ['a']) (calculate_entropy oracle0 ['a']) ∧
    (check_strength oracle0 ['a']).score = max 0 (rawScore ['a']) :=
  check_strength_band_structure oracle0 ['a'] (by decide)

/-- C3: the score field of the analysis returned by check_strength is never
negative, for any input string, even when the four check deltas sum to a
negative number. -/
theorem check_strength_score_nonneg (o : MathOracle) (p : List Char) :
    0 ≤ (check_strength o p).score := by
  unfold check_strength
  by_cases hp : p = []
  · rw [if_pos hp]
  · rw [if_neg hp]
    exact le_max_left 0 _

/-- C4: check_strength is total, and on the empty string it returns by a fixed
early exit exactly: level VeryWeak, score 0, entropy 0, feedback
["Password cannot be empty"], crack time "Instant". -/
theorem check_strength_empty (o : MathOracle) :
    check_strength o [] =
      { password := []
        strength := .veryWeak
        score := 0
        entropy := 0
        feedback := ["Password cannot be empty"]
        time_to_crack := "Instant" } := rfl

/-- C7 counterexample: the generator's fixed symbol character set does not
contain 28 characters. -/
theorem symbols_card_ne_28 : PasswordGenerator.symbols.length ≠ 28 := by decide

/-- C7 amended: the generator's fixed symbol character set contains exactly 26
characters (pairwise distinct). -/
theorem symbols_card_26 :
    PasswordGenerator.symbols.length = 26 ∧ PasswordGenerator.symbols.Nodup := by
  decide

/-- C9: analysing the string "password" yields a feedback entry flagging it as
a commonly used password, and strength level VeryWeak. -/
theorem common_password_veryweak (o : MathOracle) :
    "This is a commonly used password - avoid it" ∈
      (check_strength o "password".toList).feedback ∧
    (check_strength o "password".toList).strength = .veryWeak := by
  constructor
  · have hf : (check_strength o "password".toList).feedback =
        ["Consider using at least 12 characters", "Add uppercase letters (A-Z)",
         "Add numbers (0-9)", "Add special characters (!@#$%^&*)",
         "This is a commonly used password - avoid it"] := rfl
    rw [hf]
    simp
  · have hs : (check_strength o "password".toList).strength =
        determine_strength (rawScore "password".toList)
          (calculate_entropy o "password".toList) := rfl
    have hr : rawScore "password".toList = -3 := by decide
    rw [hs, hr]
    unfold determine_strength
    rw [if_pos (Or.inl (by norm_num) :
      (-3 : Int) ≤ 0 ∨ calculate_entropy o "password".toList < 28)]

theorem charset_nil_iff (ul uu ud us : Bool) :
    charsetOf ul uu ud us = [] ↔
      (ul = false ∧ uu = false ∧ ud = false ∧ us = false) := by
  cases ul <;> cases uu <;> cases ud <;> cases us <;> decide

/-- C6: generate fails with InvalidLength exactly when the requested length is
below 8, fails with NoCharsetSelected exactly when the length is at least 8 and
all four class flags are false, and in every other case returns a string. -/
theorem generate_error_taxonomy (choice : Nat → List Char → Char)
    (shuffle : List Char → List Char) (length : Int) (ul uu ud us : Bool) :
    (generate choice shuffle length ul uu ud us = .error .invalidLength ↔
      length < 8) ∧
    (generate choice shuffle length ul uu ud us = .error .noCharsetSelected ↔
      (8 ≤ length ∧ ul = false ∧ uu = false ∧ ud = false ∧ us = false)) ∧
    ((8 ≤ length ∧ (ul = true ∨ uu = true ∨ ud = true ∨ us = true)) →
      ∃ s, generate choice shuffle length ul uu ud us = .ok s) := by
  by_cases hl : length < 8
  · have hgen : generate choice shuffle length ul uu ud us =
        .error .invalidLength := by
      simp [generate, hl]
    refine ⟨?_, ?_, ?_⟩
    · rw [hgen]
      simp [hl]
    · rw [hgen]
      constructor
      · intro h
        simp at h
      · rintro ⟨h8, _⟩
        omega
    · rintro ⟨h8, _⟩
      omega
  · by_cases hz : ul = false ∧ uu = false ∧ ud = false ∧ us = false
    · have hcs : charsetOf ul uu ud us = [] := (charset_nil_iff ul uu ud us).mpr hz
      have hgen : generate choice shuffle length ul uu ud us =
          .error .noCharsetSelected := by
        simp [generate, hl, hcs]
      refine ⟨?_, ?_, ?_⟩
      · rw [hgen]
        constructor
        · intro h
          simp at h
        · intro h
          exact absurd h hl
      · rw [hgen]
        simp [hz.1, hz.2.1, hz.2.2.1, hz.2.2.2]
        omega
      · rintro ⟨h8, hf⟩
        rcases hz with ⟨e1, e2, e3, e4⟩
        rcases hf with h | h | h | h <;> simp_all
    · have hcs : ¬ charsetOf ul uu ud us = [] := fun h =>
        hz ((charset_nil_iff ul uu ud us).mp h)
      have hgen : ∃ s, generate choice shuffle length ul uu ud us = .ok s := by
        cases hg : generate choice shuffle length ul uu ud us with
        | error e =>
          exfalso
          revert hg
          simp [generate, hl, hcs]
        | ok s => exact ⟨s, rfl⟩
      obtain ⟨s, hs⟩ := hgen
      refine ⟨?_, ?_, ?_⟩
      · rw [hs]
        constructor
        · intro h
          simp at h
        · intro h
          exact absurd h hl
      · rw [hs]
        constructor
        · intro h
          simp at h
        · rintro ⟨_, hf⟩
          exact (hz hf).elim
      · intro _
        exact ⟨s, hs⟩

/-- C10: when both validation preconditions are violated at once (length below
8 and all four class flags false), generate reports InvalidLength, because the
length check runs before the charset check. -/
theorem invalid_length_checked_first (choice : Nat → List Char → Char)
    (shuffle : List Char → List Char) (length : Int) (ul uu ud us : Bool)
    (hl : length < 8)
    (hz : ul = false ∧ uu = false ∧ ud = false ∧ us = false) :
    generate choice shuffle length ul uu ud us = .error .invalidLength := by
  simp [generate, hl]

theorem invalid_length_checked_first_witness :
    generate choiceD id 7 false false false false = .error .invalidLength :=
  invalid_length_checked_first choiceD id 7 false false false false (by norm_num)
    ⟨rfl, rfl, rfl, rfl⟩

/-- C1: for every length of at least 8 and every flag combination with at
least one class selected, and for every secure-choice and shuffle behaviour,
generate returns a string of exactly the requested length containing at least
one character of each selected class. -/
theorem generate_length_and_class_coverage (choice : Nat → List Char → Char)
    (shuffle : List Char → List Char)
    (hchoice : ∀ n l, l ≠ [] → choice n l ∈ l)
    (hshuffle : ∀ l, (shuffle l).Perm l)
    (length : Int) (ul uu ud us : Bool) (hlen : 8 ≤ length)
    (hflag : ul = true ∨ uu = true ∨ ud = true ∨ us = true) :
    ∃ s, generate choice shuffle length ul uu ud us = .ok s ∧
      (s.length : Int) = length ∧
      (ul = true → ∃ c ∈ s, c ∈ lowercase) ∧
      (uu = true → ∃ c ∈ s, c ∈ uppercase) ∧
      (ud = true → ∃ c ∈ s, c ∈ digits) ∧
      (us = true → ∃ c ∈ s, c ∈ symbols) := by
  have hl : ¬ length < 8 := by omega
  have hz : ¬(ul = false ∧ uu = false ∧ ud = false ∧ us = false) := by
    rcases hflag with h | h | h | h <;> simp [h]
  have hcs : ¬ charsetOf ul uu ud us = [] := fun h =>
    hz ((charset_nil_iff ul uu ud us).mp h)
  have hm4 : (mandatoryOf choice ul uu ud us).length ≤ 4 := by
    unfold mandatoryOf
    cases ul <;> cases uu <;> cases ud <;> cases us <;> simp
  have hgen : generate choice shuffle length ul uu ud us =
      .ok (shuffle (mandatoryOf choice ul uu ud us ++
        (List.range ((length - ((mandatoryOf choice ul uu ud us).length : Int)).toNat)).map
          (fun i => choice (4 + i) (charsetOf ul uu ud us)))) := by
    simp [generate, hl, hcs]
  refine ⟨_, hgen, ?_, ?_, ?_, ?_, ?_⟩
  · rw [(hshuffle _).length_eq, List.length_append, List.length_map,
      List.length_range]
    omega
  · intro hul
    refine ⟨choice 0 lowercase, ((hshuffle _).mem_iff).mpr
      (List.mem_append_left _ ?_), hchoice 0 lowercase (by decide)⟩
    unfold mandatoryOf
    simp [hul]
  · intro huu
    refine ⟨choice 1 uppercase, ((hshuffle _).mem_iff).mpr
      (List.mem_append_left _ ?_), hchoice 1 uppercase (by decide)⟩
    unfold mandatoryOf
    simp [huu]
  · intro hud
    refine ⟨choice 2 digits, ((hshuffle _).mem_iff).mpr
      (List.mem_append_left _ ?_), hchoice 2 digits (by decide)⟩
    unfold mandatoryOf
    simp [hud]
  · intro hus
    refine ⟨choice 3 symbols, ((hshuffle _).mem_iff).mpr
      (List.mem_append_left _ ?_), hchoice 3 symbols (by decide)⟩
    unfold mandatoryOf
    simp [hus]

theorem generate_length_and_class_coverage_witness :
    ∃ s, generate choiceD id 16 true true true true = .ok s ∧
      (s.length : Int) = 16 ∧
      (true = true → ∃ c ∈ s, c ∈ lowercase) ∧
      (true = true → ∃ c ∈ s, c ∈ uppercase) ∧
      (true = true → ∃ c ∈ s, c ∈ digits) ∧
      (true = true → ∃ c ∈ s, c ∈ symbols) :=
  generate_length_and_class_coverage choiceD id choiceD_mem
    (fun l => List.Perm.refl l) 16 true true true true (by norm_num) (Or.inl rfl)


theorem round2_mono {x y : ℚ} (h : x ≤ y) : round2 x ≤ round2 y := by
  unfold round2
  have hf : Int.floor (100 * x + 1/2) ≤ Int.floor (100 * y + 1/2) :=
    Int.floor_mono (by linarith)
  have hc : ((Int.floor (100 * x + 1/2) : ℤ) : ℚ) ≤
      ((Int.floor (100 * y + 1/2) : ℤ) : ℚ) := by
    exact_mod_cast hf
  linarith

/-- C5: for non-empty passwords of identical character-class composition, the
computed entropy is non-decreasing in password length (for every model of
`math.log2` that is nonnegative on naturals, as the real one is on the charset
sizes that occur). -/
theorem entropy_mono_in_length (o : MathOracle) (hlog : ∀ n, 0 ≤ o.log2 n)
    (p₁ p₂ : List Char) (h₁ : p₁ ≠ []) (h₂ : p₂ ≠ [])
    (hcomp : classesOf p₁ = classesOf p₂) (hlen : p₁.length ≤ p₂.length) :
    calculate_entropy o p₁ ≤ calculate_entropy o p₂ := by
  have hcs : charset_size p₁ = charset_size p₂ := by
    simp only [classesOf, Prod.mk.injEq] at hcomp
    obtain ⟨e1, e2, e3, e4⟩ := hcomp
    unfold charset_size
    rw [e1, e2, e3, e4]
  simp only [calculate_entropy]
  rw [hcs]
  by_cases h0 : charset_size p₂ = 0
  · rw [if_pos h0, if_pos h0]
  · rw [if_neg h0, if_neg h0]
    apply round2_mono
    apply mul_le_mul_of_nonneg_right
    · exact_mod_cast hlen
    · exact hlog _

theorem entropy_mono_in_length_witness :
    calculate_entropy oracleN ['a', 'b'] ≤
      calculate_entropy oracleN ['a', 'b', 'c'] :=
  entropy_mono_in_length oracleN (fun n => Nat.cast_nonneg n)
    ['a', 'b'] ['a', 'b', 'c'] (by decide) (by decide) (by decide) (by decide)

theorem splitOnChar_sepFree (sep : Char) :
    ∀ w : List Char, sep ∉ w → splitOnChar sep w = [w] := by
  intro w
  induction w with
  | nil => intro _; rfl
  | cons c cs ih =>
    intro hw
    have hc : ¬ c = sep := by
      intro h
      subst h
      exact hw (List.mem_cons_self c cs)
    have hcs2 : sep ∉ cs := fun hm => hw (List.mem_cons_of_mem c hm)
    simp only [splitOnChar]
    rw [if_neg hc, ih hcs2]

theorem splitOnChar_append_sep (sep : Char) (rest : List Char) :
    ∀ w : List Char, sep ∉ w →
      splitOnChar sep (w ++ sep :: rest) = w :: splitOnChar sep rest := by
  intro w
  induction w with
  | nil =>
    intro _
    simp only [List.nil_append, splitOnChar]
    simp
  | cons c cs ih =>
    intro hw
    have hc : ¬ c = sep := by
      intro h
      subst h
      exact hw (List.mem_cons_self c cs)
    have hcs2 : sep ∉ cs := fun hm => hw (List.mem_cons_of_mem c hm)
    simp only [List.cons_append, splitOnChar]
    rw [if_neg hc]
    have harg : cs.append (sep :: rest) = cs ++ sep :: rest := rfl
    rw [harg, ih hcs2]

theorem intercalate_cons₂ (sep : Char) (w w2 : List Char)
    (ws3 : List (List Char)) :
    List.intercalate [sep] (w :: w2 :: ws3) =
      w ++ sep :: List.intercalate [sep] (w2 :: ws3) := by
  simp [List.intercalate, List.intersperse]

theorem splitOnChar_intercalate (sep : Char) :
    ∀ ws : List (List Char), ws ≠ [] → (∀ w ∈ ws, sep ∉ w) →
      splitOnChar sep (List.intercalate [sep] ws) = ws := by
  intro ws
  induction ws with
  | nil =>
    intro h _
    exact absurd rfl h
  | cons w ws2 ih =>
    intro _ hfree
    cases ws2 with
    | nil =>
      have h1 : List.intercalate [sep] [w] = w := by simp [List.intercalate]
      rw [h1]
      exact splitOnChar_sepFree sep w (hfree w (List.mem_cons_self w []))
    | cons w2 ws3 =>
      rw [intercalate_cons₂,
        splitOnChar_append_sep sep _ w (hfree w (List.mem_cons_self _ _)),
        ih (by simp) (fun x hx => hfree x (List.mem_cons_of_mem w hx))]

theorem count_intercalate_sep (sep : Char) :
    ∀ ws : List (List Char), ws ≠ [] → (∀ w ∈ ws, sep ∉ w) →
      List.count sep (List.intercalate [sep] ws) = ws.length - 1 := by
  intro ws
  induction ws with
  | nil =>
    intro h _
    exact absurd rfl h
  | cons w ws2 ih =>
    intro _ hfree
    cases ws2 with
    | nil =>
      have h1 : List.intercalate [sep] [w] = w := by simp [List.intercalate]
      rw [h1]
      have h0 : List.count sep w = 0 :=
        List.count_eq_zero.mpr (hfree w (List.mem_cons_self _ _))
      simp [h0]
    | cons w2 ws3 =>
      have h0 : List.count sep w = 0 :=
        List.count_eq_zero.mpr (hfree w (List.mem_cons_self _ _))
      have hrec := ih (by simp) (fun x hx => hfree x (List.mem_cons_of_mem w hx))
      rw [intercalate_cons₂, List.count_append, h0, List.count_cons_self, hrec]
      simp [List.length_cons]

theorem word_list_facts :
    ∀ w ∈ word_list,
      w ≠ [] ∧ ¬ '-' ∈ w ∧ capitalizeWord w ≠ [] ∧ ¬ '-' ∈ capitalizeWord w := by
  decide

/-- C8: generate_passphrase fails with InvalidWordCount exactly when the word
count is below 3; for every word count of at least 3 with separator "-" it
returns a string with exactly word_count − 1 occurrences of the separator and
exactly word_count nonempty segments, for every secure-choice behaviour. -/
theorem passphrase_error_and_segments
    (choice : Nat → List (List Char) → List Char)
    (hchoice : ∀ n l, l ≠ [] → choice n l ∈ l) (wc : Int) (cap : Bool) :
    (generate_passphrase choice wc ['-'] cap = .error .invalidWordCount ↔
      wc < 3) ∧
    (3 ≤ wc → ∃ s, generate_passphrase choice wc ['-'] cap = .ok s ∧
      ((List.count '-' s : Int) = wc - 1) ∧
      (((splitOnChar '-' s).length : Int) = wc) ∧
      ∀ seg ∈ splitOnChar '-' s, seg ≠ []) := by
  by_cases hwc : wc < 3
  · constructor
    · simp [generate_passphrase, hwc]
    · intro h
      omega
  · have hge : 3 ≤ wc := by omega
    have hgen : generate_passphrase choice wc ['-'] cap =
        .ok (List.intercalate ['-']
          (if cap then
            ((List.range wc.toNat).map (fun i => choice i word_list)).map
              capitalizeWord
          else (List.range wc.toNat).map (fun i => choice i word_list))) := by
      simp [generate_passphrase, hwc]
    set ws := (if cap then
        ((List.range wc.toNat).map (fun i => choice i word_list)).map
          capitalizeWord
      else (List.range wc.toNat).map (fun i => choice i word_list)) with hws
    have hmem0 : ∀ v ∈ (List.range wc.toNat).map (fun i => choice i word_list),
        v ∈ word_list := by
      intro v hv
      simp only [List.mem_map, List.mem_range] at hv
      obtain ⟨i, _, rfl⟩ := hv
      exact hchoice i word_list (by decide)
    have hmem : ∀ w ∈ ws, w ≠ [] ∧ '-' ∉ w := by
      intro w hw
      rw [hws] at hw
      by_cases hcap : cap = true
      · rw [if_pos hcap] at hw
        simp only [List.mem_map] at hw
        obtain ⟨w0, hw0, rfl⟩ := hw
        obtain ⟨i, _, rfl⟩ := hw0
        have hf := word_list_facts _ (hchoice i word_list (by decide))
        exact ⟨hf.2.2.1, hf.2.2.2⟩
      · rw [if_neg hcap] at hw
        have hf := word_list_facts w (hmem0 w hw)
        exact ⟨hf.1, hf.2.1⟩
    have hlen : ws.length = wc.toNat := by
      rw [hws]
      by_cases hcap : cap = true
      · rw [if_pos hcap]
        simp
      · rw [if_neg hcap]
        simp
    have hne : ws ≠ [] := by
      intro h
      rw [h] at hlen
      simp at hlen
      omega
    have hsplit := splitOnChar_intercalate '-' ws hne (fun w hw => (hmem w hw).2)
    have hcount := count_intercalate_sep '-' ws hne (fun w hw => (hmem w hw).2)
    refine ⟨⟨fun h => ?_, fun h => absurd h hwc⟩, fun _ => ⟨_, hgen, ?_, ?_, ?_⟩⟩
    · rw [hgen] at h
      simp at h
    · rw [hcount, hlen]
      omega
    · rw [hsplit, hlen]
      omega
    · rw [hsplit]
      exact fun seg hs => (hmem seg hs).1

theorem passphrase_error_and_segments_witness :
    ∃ s, generate_passphrase wordChoiceD 4 ['-'] false = .ok s ∧
      ((List.count '-' s : Int) = 4 - 1) ∧
      (((splitOnChar '-' s).length : Int) = 4) ∧
      ∀ seg ∈ splitOnChar '-' s, seg ≠ [] :=
  (passphrase_error_and_segments wordChoiceD wordChoiceD_mem 4 false).2
    (by norm_num)

end PwdTool
